import Mathlib

/-!
# Verification of the task-line parsing / merge / rewrite engine
# of the `obsidian-pomodoro-timer` fork

Strings are modelled as `List Char` (one entry per Unicode scalar value).
This is faithful to the JavaScript string operations used by the sources
(`includes`, `indexOf`-free scanning, regex literal matching): every string
literal appearing in the relevant code consists of BMP characters or whole
surrogate pairs that are only ever matched as atomic literal sequences.

The repository ships several divergent copies of the engine.  The rewriter
modelled here (`docIncrP2`) is the variant whose session-count recognizer
accepts three sentinel spellings and whose insertion step looks for the first
trailing metadata token (date / tag / block anchor); its lookup tries an
exact-text block-anchor match first and a component-extracted match second.
The literal characters of that variant are reproduced exactly, including the
corrupted (mojibake) emoji byte sequences present in the source file.
-/

set_option linter.unusedVariables false

namespace Pomodoro

/-- The JavaScript whitespace class: characters matched by `\s` and removed by
`String.prototype.trim`. -/
def jsWsChars : List Char :=
  [' ', '\t', '\n', Char.ofNat 11, Char.ofNat 12, '\r',
   Char.ofNat 0xA0, Char.ofNat 0x1680,
   Char.ofNat 0x2000, Char.ofNat 0x2001, Char.ofNat 0x2002, Char.ofNat 0x2003,
   Char.ofNat 0x2004, Char.ofNat 0x2005, Char.ofNat 0x2006, Char.ofNat 0x2007,
   Char.ofNat 0x2008, Char.ofNat 0x2009, Char.ofNat 0x200A,
   Char.ofNat 0x2028, Char.ofNat 0x2029, Char.ofNat 0x202F, Char.ofNat 0x205F,
   Char.ofNat 0x3000, Char.ofNat 0xFEFF]

def isJsWs (c : Char) : Bool := jsWsChars.contains c

/-- The regex class `\d`. -/
def isDigitC (c : Char) : Bool := '0' ≤ c && c ≤ '9'

/-- The regex class `\w` (ASCII word characters). -/
def isWordC (c : Char) : Bool :=
  ('a' ≤ c && c ≤ 'z') || ('A' ≤ c && c ≤ 'Z') || isDigitC c || c = '_'

/-- The tag character class: word characters plus slash and hyphen. -/
def isTagC (c : Char) : Bool := isWordC c || c = '/' || c = '-'

/-- The character class `[\w\d-]` used for block anchors in the regexes. -/
def isAnchorC (c : Char) : Bool := isWordC c || c = '-'

/-- Model of `String.prototype.trim`. -/
def trimL (l : List Char) : List Char :=
  ((l.dropWhile isJsWs).reverse.dropWhile isJsWs).reverse

/-- Model of the replacement of a leading caret by nothing: removes one leading caret, if any. -/
def stripLeadCaret : List Char → List Char
  | [] => []
  | c :: r => if c = '^' then r else c :: r

/-- Abbreviation turning a string literal into its character list. -/
def sl (str : String) : List Char := str.data

/-- Match a literal character sequence at the head of the input, returning the
rest on success. -/
def litP : List Char → List Char → Option (List Char)
  | [], l => some l
  | _ :: _, [] => none
  | p :: ps, c :: cs => if c = p then litP ps cs else none

/-- JS `haystack.includes(needle)`. -/
def containsSub (sub : List Char) : List Char → Bool
  | [] => (litP sub []).isSome
  | c :: cs => (litP sub (c :: cs)).isSome || containsSub sub cs

/-- Numeric value of a digit string (`parseInt` on an all-digit string). -/
def digitsVal (ds : List Char) : Nat :=
  ds.foldl (fun a c => 10 * a + (c.toNat - 48)) 0

def digitChar (d : Nat) : Char := Char.ofNat (48 + d % 10)

def natDigitsAux : Nat → Nat → List Char → List Char
  | 0, _, acc => acc
  | fuel + 1, n, acc =>
    if n < 10 then digitChar n :: acc
    else natDigitsAux fuel (n / 10) (digitChar (n % 10) :: acc)

/-- Decimal rendering of a natural number (JS template `${n}`). -/
def natDigits (n : Nat) : List Char := natDigitsAux (n + 1) n []

/-!
## Corrupted emoji literals

The variant file stores, in place of the intended emoji, the character
sequences obtained by decoding the emoji's UTF-8 bytes as MacRoman:

* 🍅 (U+1F345, bytes `F0 9F 8D 85`) became `U+F8FF 'ü' 'ç' 'Ö'`;
* ➕ (U+2795) became `'‚' 'û' 'ï'`;
* 📅 (U+1F4C5) became `U+F8FF 'ü' 'ì' 'Ö'`;
* ⏳ (U+23F3) became `'‚' 'è' '≥'`;
* ✅ (U+2705) became `'‚' 'ú' 'Ö'`.

These constants reproduce the file's literals exactly, code point by code
point. -/

def mojiTomato : List Char :=
  [Char.ofNat 0xF8FF, Char.ofNat 0xFC, Char.ofNat 0xE7, Char.ofNat 0xD6]

def mojiPlus : List Char := [Char.ofNat 0x201A, Char.ofNat 0xFB, Char.ofNat 0xEF]

def mojiCal : List Char :=
  [Char.ofNat 0xF8FF, Char.ofNat 0xFC, Char.ofNat 0xEC, Char.ofNat 0xD6]

def mojiHour : List Char := [Char.ofNat 0x201A, Char.ofNat 0xE8, Char.ofNat 0x2265]

def mojiCheck : List Char := [Char.ofNat 0x201A, Char.ofNat 0xFA, Char.ofNat 0xD6]

/-- The intended (uncorrupted) tomato emoji, as used by documents, by the other
`TaskTracker` variant and by the spec. -/
def tomato : Char := '🍅'

/-!
## The three session-count patterns of the rewriter

`/\[üçÖ::\s*(\d+)\]/`, `/üçÖ\s*(\d+)/` and `/\[\s*üçÖ\s*:\s*(\d+)\s*\]/`
(with the corrupted tomato), each matched at a given position.  All three are
deterministic under maximal munch because every adjacent pair of sub-patterns
draws from disjoint character classes, so the explicit scanners below compute
exactly the JS regex match. -/

/-- Match `\[üçÖ::\s*(\d+)\]` at the head; returns the digit group and the rest
after the match. -/
def matchPom1 (l : List Char) : Option (List Char × List Char) :=
  match litP ('[' :: mojiTomato ++ [':', ':']) l with
  | none => none
  | some l1 =>
    let l2 := l1.dropWhile isJsWs
    let ds := l2.takeWhile isDigitC
    if ds = [] then none
    else
      match litP [']'] (l2.dropWhile isDigitC) with
      | none => none
      | some rest => some (ds, rest)

/-- Match `üçÖ\s*(\d+)` at the head. -/
def matchPom2 (l : List Char) : Option (List Char × List Char) :=
  match litP mojiTomato l with
  | none => none
  | some l1 =>
    let l2 := l1.dropWhile isJsWs
    let ds := l2.takeWhile isDigitC
    if ds = [] then none else some (ds, l2.dropWhile isDigitC)

/-- Match `\[\s*üçÖ\s*:\s*(\d+)\s*\]` at the head. -/
def matchPom3 (l : List Char) : Option (List Char × List Char) :=
  match litP ['['] l with
  | none => none
  | some l1 =>
    match litP mojiTomato (l1.dropWhile isJsWs) with
    | none => none
    | some l2 =>
      match litP [':'] (l2.dropWhile isJsWs) with
      | none => none
      | some l3 =>
        let l4 := l3.dropWhile isJsWs
        let ds := l4.takeWhile isDigitC
        if ds = [] then none
        else
          match litP [']'] ((l4.dropWhile isDigitC).dropWhile isJsWs) with
          | none => none
          | some rest => some (ds, rest)

/-- Replacement text `[üçÖ:: ${n}]` produced for a match of the first pattern. -/
def canonPom1 (n : Nat) : List Char :=
  '[' :: mojiTomato ++ [':', ':', ' '] ++ natDigits n ++ [']']

/-- Replacement text `üçÖ ${n}` produced for a match of the second pattern. -/
def canonPom2 (n : Nat) : List Char := mojiTomato ++ ' ' :: natDigits n

/-- Replacement text `[üçÖ: ${n}]` produced for a match of the third pattern. -/
def canonPom3 (n : Nat) : List Char :=
  '[' :: mojiTomato ++ [':', ' '] ++ natDigits n ++ [']']

/-- Model of `str.replace(pat, fn)` for a non-global regex: replace the leftmost match.
Returns `none` when the pattern does not match anywhere (mirroring a `false`
result of `pat.test(str)`). -/
def replaceFirst (m : List Char → Option (List Char × List Char))
    (mk : List Char → List Char) : List Char → Option (List Char)
  | [] => none
  | c :: cs =>
    match m (c :: cs) with
    | some (ds, rest) => some (mk ds ++ rest)
    | none => (replaceFirst m mk cs).map (fun r => c :: r)

/-!
## The metadata-token pattern used for insertion

The regex alternation: whitespace then a (corrupted) date emoji then a
whitespace-separated ISO date, or whitespace then `#` then tag characters, or
whitespace then `^` then anchor characters; followed by whitespace or end of
line. -/

/-- Regex `\s+` (at least one whitespace character, maximal). -/
def wsPlus (l : List Char) : Option (List Char) :=
  match l with
  | [] => none
  | c :: cs => if isJsWs c then some ((c :: cs).dropWhile isJsWs) else none

/-- Exactly `n` digits. -/
def matchDigitsN : Nat → List Char → Option (List Char)
  | 0, l => some l
  | _ + 1, [] => none
  | n + 1, c :: cs => if isDigitC c then matchDigitsN n cs else none

/-- Regex for an ISO date: four digits, dash, two digits, dash, two digits. -/
def matchIsoDate (l : List Char) : Option (List Char) :=
  match matchDigitsN 4 l with
  | none => none
  | some l1 =>
    match litP ['-'] l1 with
    | none => none
    | some l2 =>
      match matchDigitsN 2 l2 with
      | none => none
      | some l3 =>
        match litP ['-'] l3 with
        | none => none
        | some l4 => matchDigitsN 2 l4

/-- Regex tail guard: whitespace or end of input. -/
def tailOk : List Char → Bool
  | [] => true
  | c :: _ => isJsWs c

/-- Does the metadata pattern match starting at the current position? -/
def matchMetaAt (l : List Char) : Bool :=
  (match wsPlus l with
   | none => false
   | some l1 =>
     [mojiPlus, mojiCal, mojiHour, mojiCheck].any fun e =>
       match litP e l1 with
       | none => false
       | some l2 =>
         match wsPlus l2 with
         | none => false
         | some l3 =>
           match matchIsoDate l3 with
           | none => false
           | some rest => tailOk rest)
  ||
  (match wsPlus l with
   | none => false
   | some l1 =>
     match litP ['#'] l1 with
     | none => false
     | some l2 => !(l2.takeWhile isTagC).isEmpty && tailOk (l2.dropWhile isTagC))
  ||
  (match wsPlus l with
   | none => false
   | some l1 =>
     match litP ['^'] l1 with
     | none => false
     | some l2 =>
       !(l2.takeWhile isAnchorC).isEmpty && tailOk (l2.dropWhile isAnchorC))

/-- Position of the leftmost match of the metadata pattern (its `index`). -/
def findMetaIdx : List Char → Option Nat
  | [] => none
  | c :: cs => if matchMetaAt (c :: cs) then some 0 else (findMetaIdx cs).map (· + 1)

/-- The inserted sentinel text `' [üçÖ:: 1]'` (corrupted tomato). -/
def insChunk : List Char := ' ' :: '[' :: mojiTomato ++ [':', ':', ' ', '1', ']']

/-- The per-line update step of the rewriter: try the three session-count
patterns in order and bump the first match, formatting the replacement in the
spelling class that matched; otherwise insert a fresh `[üçÖ:: 1]` before the
first metadata token, or append it at the end of the line. -/
def updateLineP2 (l : List Char) : List Char :=
  match replaceFirst matchPom1 (fun ds => canonPom1 (digitsVal ds + 1)) l with
  | some r => r
  | none =>
    match replaceFirst matchPom2 (fun ds => canonPom2 (digitsVal ds + 1)) l with
    | some r => r
    | none =>
      match replaceFirst matchPom3 (fun ds => canonPom3 (digitsVal ds + 1)) l with
      | some r => r
      | none =>
        match findMetaIdx l with
        | some i => l.take i ++ insChunk ++ l.drop i
        | none => l ++ insChunk

/-!
## Document text as lines

`content.split('\n')` and `lines.join('\n')`. -/

def splitLines : List Char → List (List Char)
  | [] => [[]]
  | c :: cs =>
    if c = '\n' then [] :: splitLines cs
    else
      match splitLines cs with
      | [] => [[c]]
      | l :: ls => (c :: l) :: ls

def joinLines : List (List Char) → List Char
  | [] => []
  | [l] => l
  | l :: ls => l ++ '\n' :: joinLines ls

/-- One entry of the structural index (`metadata.listItems`): the line number
of the list item and, when the item is a task, the status character inside its
brackets (`rawElement.task`; `none` models the absent / falsy value of a
non-task item). -/
structure MListItem where
  line : Nat
  task : Option Char
deriving DecidableEq

/-- The extracted components of a task line. -/
structure TaskComponents where
  status : Char
  body : List Char
  blockLink : List Char
deriving DecidableEq

/-- Strip a trailing block anchor (a space, a caret, then a non-empty run of
alphanumeric or hyphen characters at the very end of the body), returning the
anchor text — including its leading space — and the remaining body. -/
def splitAnchor (body : List Char) : List Char × List Char :=
  let rev := body.reverse
  let tk := rev.takeWhile fun c => c.isAlphanum || c = '-'
  match rev.drop tk.length with
  | '^' :: ' ' :: rest =>
    if tk.isEmpty then ([], body)
    else (' ' :: '^' :: tk.reverse, rest.reverse)
  | _ => ([], body)

/-- Modelled from the spec: `extractTaskComponents` lives in `utils.ts`, which
is not under `src/`.  Per §4.1 it recognizes a checkbox list-item `- [c] `
(after optional indentation) and reports the status character, the body, and a
trailing block-anchor token that is stripped from the body.  The anchor is
reported with its leading space, the convention forced by `ensureBlockId`,
which appends `task.blockLink` verbatim to a line and compares it with
`line.endsWith`. -/
def extractTaskComponents (line : List Char) : Option TaskComponents :=
  match line.dropWhile isJsWs with
  | '-' :: ' ' :: rest =>
    match rest with
    | '[' :: st :: ']' :: tail =>
      let body0 := tail.dropWhile isJsWs
      let (bl, body) := splitAnchor body0
      some ⟨st, trimL body, bl⟩
    | _ => none
  | _ => none

/-!
## The rewriter's lookup and document update

Model of the body of `incrTaskActual` in the rewriter variant: normalize the
searched block link, scan the structural index for the first task line that
matches either by exact text (`line.includes('^' + id)`) or by its extracted
component anchor, then rewrite that single line and write the file only when
the line actually changed. -/

/-- Normalization of the searched block link: strip one leading caret, then trim. -/
def normSearch (blockLink : List Char) : List Char := trimL (stripLeadCaret blockLink)

/-- Lookup method 1: the line contains the text `^` followed by the normalized
search id. -/
def method1 (id line : List Char) : Bool := containsSub ('^' :: id) line

/-- Lookup method 2: the line's extracted component anchor — after stripping a
leading caret and trimming — is non-empty and equals the normalized search
id. -/
def method2 (id line : List Char) : Bool :=
  match extractTaskComponents line with
  | none => false
  | some c =>
    let cid := trimL (stripLeadCaret c.blockLink)
    !cid.isEmpty && cid = id

/-- Scan the structural index in order for the first task item whose line
matches by method 1 or method 2.  `none` models the abort that the JS code
hits when an index entry points past the end of the line array (the member
access on `undefined` throws, so no write happens); `some none` is the
not-found outcome; `some (some i)` the matched line number. -/
def findTarget (id : List Char) (lines : List (List Char)) :
    List MListItem → Option (Option Nat)
  | [] => some none
  | it :: rest =>
    match it.task with
    | none => findTarget id lines rest
    | some _ =>
      if it.line < lines.length then
        if method1 id (lines.getD it.line []) || method2 id (lines.getD it.line []) then
          some (some it.line)
        else findTarget id lines rest
      else none

/-- The document-level increment operation: returns the resulting document
text together with a flag recording whether the file was written
(`vault.modify` called).  When nothing is written the text is returned
untouched. -/
def docIncrP2 (items : List MListItem) (blockLink : List Char)
    (content : List Char) : List Char × Bool :=
  if content = [] then (content, false)
  else
    match findTarget (normSearch blockLink) (splitLines content) items with
    | none => (content, false)
    | some none => (content, false)
    | some (some i) =>
      if updateLineP2 ((splitLines content).getD i []) = (splitLines content).getD i []
      then (content, false)
      else
        (joinLines ((splitLines content).set i
          (updateLineP2 ((splitLines content).getD i []))), true)

/-!
## The document's session counter (spec-modelled parse) -/

/-- Match the real-emoji session sentinel `[🍅:: actual]` or
`[🍅:: actual/expected]` at the head; returns the actual digits, the optional
expected digits and the rest. -/
def matchRealPom (l : List Char) : Option (List Char × Option (List Char) × List Char) :=
  match litP ('[' :: tomato :: [':', ':']) l with
  | none => none
  | some l1 =>
    let l2 := l1.dropWhile isJsWs
    let ds := l2.takeWhile isDigitC
    if ds = [] then none
    else
      match l2.dropWhile isDigitC with
      | '/' :: l4 =>
        let es := l4.takeWhile isDigitC
        if es = [] then none
        else
          match litP [']'] ((l4.dropWhile isDigitC).dropWhile isJsWs) with
          | none => none
          | some rest => some (ds, some es, rest)
      | l3 =>
        match litP [']'] (l3.dropWhile isJsWs) with
        | none => none
        | some rest => some (ds, none, rest)

/-- Leftmost occurrence of the real-emoji session sentinel in a line. -/
def findRealPom : List Char → Option (List Char × Option (List Char))
  | [] => none
  | c :: cs =>
    match matchRealPom (c :: cs) with
    | some (ds, es, _) => some (ds, es)
    | none => findRealPom cs

/-- Modelled from the spec: the deserializer (`serializer.ts`) is not under
`src/`.  Per §4.2 session counters are encoded as `actual/expected` inside the
tomato-emoji bracket sentinel and default to 0 when the sentinel is absent.
This function returns the parsed `sessionsActual` of one line. -/
def specSessionsActual (line : List Char) : Nat :=
  match findRealPom line with
  | some (ds, _) => digitsVal ds
  | none => 0

end Pomodoro

namespace Pomodoro

/-- C1 (code bug).  Claim: on a task line carrying the target anchor and a
session-count sentinel in any of the three supported spellings, one
application of the increment operation raises the parsed count by exactly 1,
preserving the spelling and every other field.  Evaluation of the rewriter on
the double-colon spelling `- [ ] Task [🍅:: 2] ^ab12`: none of the three
recognizer patterns fires (their tomato literals are the corrupted MacRoman
byte sequence, not 🍅), so instead of rewriting `2` to `3` the code inserts a
second, corrupted sentinel `[üçÖ:: 1]` before the anchor and the parsed count
stays 2. -/
theorem c1_double_colon_line_not_incremented :
    docIncrP2 [⟨0, some ' '⟩] (sl "^ab12") (sl "- [ ] Task [🍅:: 2] ^ab12")
      = (sl "- [ ] Task [🍅:: 2]" ++ insChunk ++ sl " ^ab12", true)
    ∧ sl "- [ ] Task [🍅:: 2]" ++ insChunk ++ sl " ^ab12"
        ≠ sl "- [ ] Task [🍅:: 3] ^ab12"
    ∧ specSessionsActual (sl "- [ ] Task [🍅:: 2]" ++ insChunk ++ sl " ^ab12") = 2 := by
  decide

/-- C2 (code bug).  Claim: on a sentinel-free matched line the operation
inserts `[🍅:: 1]` immediately before the first recognized trailing metadata
token — for `- [ ] Write report 📅 2024-05-01 ^abc1` before the date field.
Evaluation: the insertion regex's date-emoji alternatives are corrupted
MacRoman sequences that cannot match the real 📅, so the leftmost recognized
token is the block anchor; the sentinel — itself spelled with the corrupted
tomato — lands between the date and the anchor, not before the date. -/
theorem c2_insertion_lands_after_date :
    docIncrP2 [⟨0, some ' '⟩] (sl "^abc1") (sl "- [ ] Write report 📅 2024-05-01 ^abc1")
      = (sl "- [ ] Write report 📅 2024-05-01" ++ insChunk ++ sl " ^abc1", true)
    ∧ sl "- [ ] Write report 📅 2024-05-01" ++ insChunk ++ sl " ^abc1"
        ≠ sl "- [ ] Write report [🍅:: 1] 📅 2024-05-01 ^abc1" := by
  decide

/-- C3 (code bug).  Claim: applying the increment twice in sequence leaves
the parsed count exactly 2 greater than the original.  Evaluation on
`- [ ] Report [🍅:: 2] ^cd34`: the first call inserts a corrupted sentinel
`[üçÖ:: 1]` (the real-emoji sentinel is not recognized), the second call bumps
that corrupted sentinel to `[üçÖ:: 2]`; the document's parsed session count
is 2 before and 2 after both calls — a change of 0, not 2. -/
theorem c3_two_calls_leave_count_unchanged :
    docIncrP2 [⟨0, some ' '⟩] (sl "^cd34") (sl "- [ ] Report [🍅:: 2] ^cd34")
      = (sl "- [ ] Report [🍅:: 2]" ++ insChunk ++ sl " ^cd34", true)
    ∧ docIncrP2 [⟨0, some ' '⟩] (sl "^cd34")
        (sl "- [ ] Report [🍅:: 2]" ++ insChunk ++ sl " ^cd34")
      = (sl "- [ ] Report [🍅:: 2] " ++ canonPom1 2 ++ sl " ^cd34", true)
    ∧ specSessionsActual (sl "- [ ] Report [🍅:: 2] ^cd34") = 2
    ∧ specSessionsActual (sl "- [ ] Report [🍅:: 2] " ++ canonPom1 2 ++ sl " ^cd34") = 2 := by
  decide

/-!
## Support lemmas: suffixes, newline-freedom, line splitting -/

theorem litP_suffix : ∀ p l r, litP p l = some r → r <:+ l := by
  intro p
  induction p with
  | nil => intro l r h; simp [litP] at h; exact h ▸ List.suffix_refl l
  | cons a as ih =>
    intro l r h
    match l with
    | [] => simp [litP] at h
    | c :: cs =>
      by_cases hc : c = a
      · simp only [litP, hc, if_pos] at h
        exact (ih cs r h).trans (List.suffix_cons c cs)
      · simp [litP, hc] at h

theorem dropWhile_suffix (p : Char → Bool) (l : List Char) : l.dropWhile p <:+ l :=
  ⟨l.takeWhile p, l.takeWhile_append_dropWhile p⟩

theorem matchPom1_rest_suffix {l ds rest} (h : matchPom1 l = some (ds, rest)) :
    rest <:+ l := by
  unfold matchPom1 at h
  split at h
  · simp at h
  next l1 h1 =>
    dsimp only at h
    split at h
    · simp at h
    · split at h
      · simp at h
      next r2 h2 =>
        simp only [Option.some.injEq, Prod.mk.injEq] at h
        obtain ⟨-, rfl⟩ := h
        exact ((litP_suffix _ _ _ h2).trans
          ((dropWhile_suffix _ _).trans (dropWhile_suffix _ _))).trans
            (litP_suffix _ _ _ h1)

theorem matchPom2_rest_suffix {l ds rest} (h : matchPom2 l = some (ds, rest)) :
    rest <:+ l := by
  unfold matchPom2 at h
  split at h
  · simp at h
  next l1 h1 =>
    dsimp only at h
    split at h
    · simp at h
    · simp only [Option.some.injEq, Prod.mk.injEq] at h
      obtain ⟨-, rfl⟩ := h
      exact ((dropWhile_suffix _ _).trans (dropWhile_suffix _ _)).trans
        (litP_suffix _ _ _ h1)

theorem matchPom3_rest_suffix {l ds rest} (h : matchPom3 l = some (ds, rest)) :
    rest <:+ l := by
  unfold matchPom3 at h
  split at h
  · simp at h
  next l1 h1 =>
    split at h
    · simp at h
    next l2 h2 =>
      split at h
      · simp at h
      next l3 h3 =>
        dsimp only at h
        split at h
        · simp at h
        · split at h
          · simp at h
          next r4 h4 =>
            simp only [Option.some.injEq, Prod.mk.injEq] at h
            obtain ⟨-, rfl⟩ := h
            refine (litP_suffix _ _ _ h4).trans ?_
            refine ((dropWhile_suffix _ _).trans ((dropWhile_suffix _ _).trans
              (dropWhile_suffix _ _))).trans ?_
            exact (litP_suffix _ _ _ h3).trans
              ((dropWhile_suffix _ _).trans ((litP_suffix _ _ _ h2).trans
                ((dropWhile_suffix _ _).trans (litP_suffix _ _ _ h1))))

theorem digitChar_ne_nl (d : Nat) : digitChar d ≠ '\n' := by
  have h10 : d % 10 < 10 := Nat.mod_lt _ (by norm_num)
  unfold digitChar
  set k := d % 10 with hk
  interval_cases k <;> decide

theorem natDigitsAux_mem {c : Char} :
    ∀ fuel n acc, c ∈ natDigitsAux fuel n acc → (∃ d, c = digitChar d) ∨ c ∈ acc := by
  intro fuel
  induction fuel with
  | zero => intro n acc h; exact Or.inr h
  | succ f ih =>
    intro n acc h
    unfold natDigitsAux at h
    by_cases hn : n < 10
    · simp only [hn, if_pos] at h
      rcases List.mem_cons.mp h with h | h
      · exact Or.inl ⟨n, h⟩
      · exact Or.inr h
    · simp only [hn, if_neg] at h
      rcases ih _ _ h with h | h
      · exact Or.inl h
      · rcases List.mem_cons.mp h with h | h
        · exact Or.inl ⟨n % 10, h⟩
        · exact Or.inr h

theorem natDigits_ne_nl {c : Char} {n : Nat} (h : c ∈ natDigits n) : c ≠ '\n' := by
  rcases natDigitsAux_mem _ _ _ h with ⟨d, rfl⟩ | h
  · exact digitChar_ne_nl d
  · simp at h

theorem canonPom1_nl (n : Nat) : '\n' ∉ canonPom1 n := by
  unfold canonPom1
  intro h
  rcases List.mem_cons.mp h with h | h
  · exact absurd h (by decide)
  rcases List.mem_append.mp h with h | h
  · rcases List.mem_append.mp h with h | h
    · exact absurd h (by decide)
    · exact natDigits_ne_nl h rfl
  · exact absurd h (by decide)

theorem canonPom2_nl (n : Nat) : '\n' ∉ canonPom2 n := by
  unfold canonPom2
  intro h
  rcases List.mem_append.mp h with h | h
  · exact absurd h (by decide)
  rcases List.mem_cons.mp h with h | h
  · exact absurd h (by decide)
  · exact natDigits_ne_nl h rfl

theorem canonPom3_nl (n : Nat) : '\n' ∉ canonPom3 n := by
  unfold canonPom3
  intro h
  rcases List.mem_cons.mp h with h | h
  · exact absurd h (by decide)
  rcases List.mem_append.mp h with h | h
  · rcases List.mem_append.mp h with h | h
    · exact absurd h (by decide)
    · exact natDigits_ne_nl h rfl
  · exact absurd h (by decide)

theorem replaceFirst_nl (m : List Char → Option (List Char × List Char))
    (mk : List Char → List Char)
    (Hrest : ∀ l ds rest, m l = some (ds, rest) → rest <:+ l)
    (Hmk : ∀ ds, '\n' ∉ mk ds) :
    ∀ l r, '\n' ∉ l → replaceFirst m mk l = some r → '\n' ∉ r := by
  intro l
  induction l with
  | nil => intro r _ h; simp [replaceFirst] at h
  | cons c cs ih =>
    intro r hnl h
    unfold replaceFirst at h
    cases hm : m (c :: cs) with
    | some p =>
      rw [hm] at h
      obtain ⟨ds, rest⟩ := p
      simp only [Option.some.injEq] at h
      subst h
      intro hmem
      rcases List.mem_append.mp hmem with hmem | hmem
      · exact Hmk ds hmem
      · exact hnl ((Hrest _ _ _ hm).subset hmem)
    | none =>
      rw [hm] at h
      cases hrec : replaceFirst m mk cs with
      | none => rw [hrec] at h; simp at h
      | some r' =>
        rw [hrec] at h
        simp only [Option.map_some', Option.some.injEq] at h
        subst h
        intro hmem
        rcases List.mem_cons.mp hmem with hmem | hmem
        · exact hnl (hmem ▸ List.mem_cons_self c cs)
        · exact ih r' (fun hc => hnl (List.mem_cons_of_mem c hc)) hrec hmem

theorem insChunk_nl : '\n' ∉ insChunk := by decide

theorem updateLineP2_nl {l : List Char} (hnl : '\n' ∉ l) : '\n' ∉ updateLineP2 l := by
  unfold updateLineP2
  cases h1 : replaceFirst matchPom1 (fun ds => canonPom1 (digitsVal ds + 1)) l with
  | some r =>
    exact replaceFirst_nl _ _ (fun _ _ _ h => matchPom1_rest_suffix h)
      (fun ds => canonPom1_nl _) l r hnl h1
  | none =>
    cases h2 : replaceFirst matchPom2 (fun ds => canonPom2 (digitsVal ds + 1)) l with
    | some r =>
      exact replaceFirst_nl _ _ (fun _ _ _ h => matchPom2_rest_suffix h)
        (fun ds => canonPom2_nl _) l r hnl h2
    | none =>
      cases h3 : replaceFirst matchPom3 (fun ds => canonPom3 (digitsVal ds + 1)) l with
      | some r =>
        exact replaceFirst_nl _ _ (fun _ _ _ h => matchPom3_rest_suffix h)
          (fun ds => canonPom3_nl _) l r hnl h3
      | none =>
        cases h4 : findMetaIdx l with
        | some i =>
          simp only
          intro hmem
          rcases List.mem_append.mp hmem with hmem | hmem
          · rcases List.mem_append.mp hmem with hmem | hmem
            · exact hnl (List.take_subset i l hmem)
            · exact insChunk_nl hmem
          · exact hnl (List.drop_subset i l hmem)
        | none =>
          simp only
          intro hmem
          rcases List.mem_append.mp hmem with hmem | hmem
          · exact hnl hmem
          · exact insChunk_nl hmem

theorem splitLines_ne_nil (c : List Char) : splitLines c ≠ [] := by
  cases c with
  | nil => simp [splitLines]
  | cons a as =>
    unfold splitLines
    by_cases h : a = '\n'
    · simp [h]
    · simp only [h, if_neg, ne_eq]
      cases splitLines as <;> simp

theorem mem_splitLines_nl {c : List Char} {l : List Char} (h : l ∈ splitLines c) :
    '\n' ∉ l := by
  induction c generalizing l with
  | nil =>
    simp [splitLines] at h
    subst h; simp
  | cons a as ih =>
    unfold splitLines at h
    by_cases ha : a = '\n'
    · simp only [ha, if_pos] at h
      rcases List.mem_cons.mp h with h | h
      · subst h; simp
      · exact ih h
    · simp only [ha, if_neg] at h
      cases hs : splitLines as with
      | nil => exact absurd hs (splitLines_ne_nil as)
      | cons l0 ls =>
        rw [hs] at h
        rcases List.mem_cons.mp h with h | h
        · subst h
          intro hm
          rcases List.mem_cons.mp hm with hm | hm
          · exact ha hm.symm
          · exact ih (hs ▸ List.mem_cons_self l0 ls) hm
        · exact ih (hs ▸ List.mem_cons_of_mem l0 h)

theorem splitLines_of_nl_free {l : List Char} (h : '\n' ∉ l) : splitLines l = [l] := by
  induction l with
  | nil => rfl
  | cons a as ih =>
    have ha : a ≠ '\n' := fun hc => h (hc ▸ List.mem_cons_self a as)
    have has : '\n' ∉ as := fun hc => h (List.mem_cons_of_mem a hc)
    rw [splitLines, if_neg ha, ih has]

theorem splitLines_append_newline {l t : List Char} (h : '\n' ∉ l) :
    splitLines (l ++ '\n' :: t) = l :: splitLines t := by
  induction l with
  | nil => rfl
  | cons a as ih =>
    have ha : a ≠ '\n' := fun hc => h (hc ▸ List.mem_cons_self a as)
    have has : '\n' ∉ as := fun hc => h (List.mem_cons_of_mem a hc)
    rw [List.cons_append, splitLines, if_neg ha, ih has]

theorem splitLines_joinLines :
    ∀ ls : List (List Char), ls ≠ [] → (∀ l ∈ ls, '\n' ∉ l) →
      splitLines (joinLines ls) = ls := by
  intro ls
  induction ls with
  | nil => intro h; exact absurd rfl h
  | cons l rest ih =>
    intro _ hnl
    cases rest with
    | nil =>
      show splitLines (joinLines [l]) = [l]
      unfold joinLines
      exact splitLines_of_nl_free (hnl l (List.mem_cons_self l []))
    | cons l2 rest2 =>
      show splitLines (l ++ '\n' :: joinLines (l2 :: rest2)) = l :: l2 :: rest2
      rw [splitLines_append_newline (hnl l (List.mem_cons_self l _))]
      rw [ih (by simp) (fun x hx => hnl x (List.mem_cons_of_mem l hx))]

/-!
## C4 and C5: the not-found and frame properties of the rewriter -/

theorem findTarget_not_found {id : List Char} {lines : List (List Char)}
    {items : List MListItem}
    (hB : ∀ it ∈ items, it.task.isSome → it.line < lines.length)
    (hNo : ∀ it ∈ items, it.task.isSome →
      method1 id (lines.getD it.line []) = false ∧
      method2 id (lines.getD it.line []) = false) :
    findTarget id lines items = some none := by
  induction items with
  | nil => rfl
  | cons it rest ih =>
    unfold findTarget
    cases ht : it.task with
    | none =>
      exact ih (fun x hx => hB x (List.mem_cons_of_mem it hx))
        (fun x hx => hNo x (List.mem_cons_of_mem it hx))
    | some c =>
      have hsome : it.task.isSome := by rw [ht]; rfl
      have hlt := hB it (List.mem_cons_self it rest) hsome
      have hno := hNo it (List.mem_cons_self it rest) hsome
      rw [if_pos hlt, hno.1, hno.2]
      simp only [Bool.or_self, Bool.false_eq_true, if_false]
      exact ih (fun x hx => hB x (List.mem_cons_of_mem it hx))
        (fun x hx => hNo x (List.mem_cons_of_mem it hx))

/-- C4.  When no task line of the document matches the target identity by
either lookup method (exact anchor text or extracted component anchor), the
increment operation performs no write and the document text is returned
byte-for-byte equal to the input; the not-found outcome is observable as the
absent write. -/
theorem c4_not_found_no_write (items : List MListItem) (blockLink content : List Char)
    (hB : ∀ it ∈ items, it.task.isSome → it.line < (splitLines content).length)
    (hNo : ∀ it ∈ items, it.task.isSome →
      method1 (normSearch blockLink) ((splitLines content).getD it.line []) = false ∧
      method2 (normSearch blockLink) ((splitLines content).getD it.line []) = false) :
    docIncrP2 items blockLink content = (content, false) := by
  unfold docIncrP2
  by_cases hc : content = []
  · rw [if_pos hc]
  · rw [if_neg hc, findTarget_not_found hB hNo]

/-- Closed witness for C4: a one-line document whose only task line carries a
different anchor is left untouched. -/
theorem c4_not_found_no_write_witness :
    docIncrP2 [⟨0, some ' '⟩] (sl "^ab12") (sl "- [ ] Other task ^zz99")
      = (sl "- [ ] Other task ^zz99", false) := by
  apply c4_not_found_no_write
  · intro it hit hsome
    simp at hit
    subst hit
    decide
  · intro it hit hsome
    simp at hit
    subst hit
    constructor <;> decide

theorem findTarget_lt {id : List Char} {lines : List (List Char)}
    {items : List MListItem} {i : Nat}
    (h : findTarget id lines items = some (some i)) : i < lines.length := by
  induction items with
  | nil => simp [findTarget] at h
  | cons it rest ih =>
    unfold findTarget at h
    cases ht : it.task with
    | none => rw [ht] at h; exact ih h
    | some c =>
      rw [ht] at h
      by_cases hlt : it.line < lines.length
      · rw [if_pos hlt] at h
        by_cases hm : (method1 id (lines.getD it.line [])
            || method2 id (lines.getD it.line [])) = true
        · rw [if_pos hm] at h
          simp only [Option.some.injEq] at h
          omega
        · rw [if_neg hm] at h
          exact ih h
      · rw [if_neg hlt] at h
        simp at h

/-- C5.  Whenever the increment operation writes the file, the resulting
document text differs from the input in exactly one line: some line index `i`
within range is replaced by a different line and every other line passes
through unmodified (the line list of the output is `set i u` of the input's
line list with `u` different from the original line `i`). -/
theorem c5_write_touches_one_line (items : List MListItem)
    (blockLink content out : List Char)
    (h : docIncrP2 items blockLink content = (out, true)) :
    ∃ i u, i < (splitLines content).length ∧
      splitLines out = (splitLines content).set i u ∧
      u ≠ (splitLines content).getD i [] := by
  unfold docIncrP2 at h
  by_cases hc : content = []
  · rw [if_pos hc] at h
    simp at h
  · rw [if_neg hc] at h
    cases hf : findTarget (normSearch blockLink) (splitLines content) items with
    | none => rw [hf] at h; simp at h
    | some o =>
      rw [hf] at h
      cases o with
      | none => simp at h
      | some i =>
        simp only at h
        by_cases he : updateLineP2 ((splitLines content).getD i [])
            = (splitLines content).getD i []
        · rw [if_pos he] at h
          simp at h
        · rw [if_neg he] at h
          simp only [Prod.mk.injEq] at h
          obtain ⟨hout, -⟩ := h
          have hlt : i < (splitLines content).length := findTarget_lt hf
          refine ⟨i, updateLineP2 ((splitLines content).getD i []), hlt, ?_, he⟩
          rw [← hout]
          have horig_mem : (splitLines content).getD i [] ∈ splitLines content := by
            rw [List.getD_eq_getElem (splitLines content) [] hlt]
            exact List.getElem_mem hlt
          have hmem_nl : ∀ l ∈ (splitLines content).set i
              (updateLineP2 ((splitLines content).getD i [])), '\n' ∉ l := by
            intro l hl
            rcases List.mem_or_eq_of_mem_set hl with hl | rfl
            · exact mem_splitLines_nl hl
            · exact updateLineP2_nl (mem_splitLines_nl horig_mem)
          have hne : (splitLines content).set i
              (updateLineP2 ((splitLines content).getD i [])) ≠ [] := by
            intro hcon
            have hlen := congrArg List.length hcon
            simp only [List.length_set, List.length_nil] at hlen
            rw [hlen] at hlt
            exact Nat.not_lt_zero i hlt
          exact splitLines_joinLines _ hne hmem_nl

/-- Closed witness for C5: a successful increment on a two-line document. -/
theorem c5_write_touches_one_line_witness :
    ∃ i u, i < (splitLines (sl "# Heading\n- [ ] Task ^ab12")).length ∧
      splitLines (docIncrP2 [⟨1, some ' '⟩] (sl "^ab12")
          (sl "# Heading\n- [ ] Task ^ab12")).1
        = (splitLines (sl "# Heading\n- [ ] Task ^ab12")).set i u ∧
      u ≠ (splitLines (sl "# Heading\n- [ ] Task ^ab12")).getD i [] := by
  apply c5_write_touches_one_line [⟨1, some ' '⟩] (sl "^ab12")
  show docIncrP2 _ _ _ = _
  decide

/-!
## The task record (`TaskItem` of `Tasks.ts`) -/

inductive TaskSource
  | direct
  | query
  | dom
deriving DecidableEq

/-- The `TaskItem` record type, field for field.  Strings are `List Char`,
numeric fields are `Int` (mirroring JS `number` over the values the program
constructs), `source` is the provenance tag. -/
structure TaskItem where
  path : List Char
  text : List Char
  fileName : List Char
  name : List Char
  status : List Char
  blockLink : List Char
  checked : Bool
  done : List Char
  due : List Char
  created : List Char
  cancelled : List Char
  scheduled : List Char
  start : List Char
  description : List Char
  priority : List Char
  recurrence : List Char
  expected : Int
  actual : Int
  tags : List (List Char)
  line : Nat
  source : TaskSource
deriving DecidableEq

def blankTask : TaskItem :=
  ⟨[], [], [], [], [], [], false, [], [], [], [], [], [], [], [], [],
    0, 0, [], 0, TaskSource.direct⟩

/-!
## C6: the merge of direct-scan and external-query records

`loadQueriedTasks` skips a candidate when it duplicates a record of the list
currently held in the store (`existingTasks`, captured by subscribing to the
store before the candidates are processed); the caller then sets the store to
`[...tasks, ...queriedTasks]` — the fresh direct-scan records followed by the
surviving candidates. -/

/-- The duplicate test: some already-held record has the same (truthy) block
link as the candidate's extracted one, or the same line number and file
path. -/
def isDuplicate (existing : List TaskItem) (c : TaskItem) : Bool :=
  existing.any fun e =>
    (!c.blockLink.isEmpty && e.blockLink == c.blockLink)
      || (e.line == c.line && e.path == c.path)

/-- The surviving external-query candidates: those not flagged as duplicates
of the previously held list. -/
def filterQueried (existing : List TaskItem) (cands : List TaskItem) : List TaskItem :=
  cands.filter fun c => !isDuplicate existing c

/-- The merged store contents `[...tasks, ...queriedTasks]`. -/
def mergeTasks (existing direct cands : List TaskItem) : List TaskItem :=
  direct ++ filterQueried existing cands

/-- A direct-scan record: anchor `^xyz9`, description "Buy milk". -/
def directEx : TaskItem :=
  { blankTask with
    name := sl "Buy milk", description := sl "Buy milk",
    blockLink := sl "^xyz9", path := sl "today.md",
    source := TaskSource.direct }

/-- An external-query record with the same anchor but different field values
and a different origin position. -/
def queriedEx : TaskItem :=
  { blankTask with
    name := sl "Different text", description := sl "Different text",
    blockLink := sl "^xyz9", path := sl "other.md", line := 5,
    source := TaskSource.query }

/-- C6 counterexample.  The claim says the merged collection holds exactly
one record per shared identity, keeping the direct-scan record's values.  But
the duplicate check runs against the store's *previous* list, not against the
fresh direct-scan records: with an empty previous list, a direct record and an
external record sharing the anchor `xyz9` both end up in the merged
collection. -/
theorem c6_duplicate_survives_first_merge :
    mergeTasks [] [directEx] [queriedEx] = [directEx, queriedEx]
    ∧ directEx.blockLink = queriedEx.blockLink
    ∧ directEx.description ≠ queriedEx.description := by
  decide

/-- C6 (amended).  Every direct-scan record reaches the merged collection
with its field values untouched; an external-query candidate is inserted only
when no record of the *previously held* task list shares its (truthy) block
link or its (path, line) pair; and every merged record is either a direct-scan
record or a surviving candidate.  (The fresh direct-scan records themselves
are not consulted by the duplicate check — see the counterexample.) -/
theorem c6_merge_dedup_against_previous_list (existing direct cands : List TaskItem) :
    (∀ d ∈ direct, d ∈ mergeTasks existing direct cands)
    ∧ (∀ c ∈ cands, isDuplicate existing c = true → c ∉ filterQueried existing cands)
    ∧ (∀ t ∈ mergeTasks existing direct cands,
        t ∈ direct ∨ (t ∈ cands ∧ isDuplicate existing t = false)) := by
  refine ⟨?_, ?_, ?_⟩
  · intro d hd
    exact List.mem_append_left _ hd
  · intro c _ hdup hmem
    have hp := List.of_mem_filter hmem
    rw [hdup] at hp
    simp at hp
  · intro t ht
    rcases List.mem_append.mp ht with ht | ht
    · exact Or.inl ht
    · refine Or.inr ⟨List.mem_of_mem_filter ht, ?_⟩
      have hp := List.of_mem_filter ht
      simpa using hp

/-- Closed witness for the amended C6: with the direct record already in the
previous list, the duplicate candidate is dropped. -/
theorem c6_merge_dedup_witness :
    queriedEx ∉ filterQueried [directEx] [queriedEx] :=
  (c6_merge_dedup_against_previous_list [directEx] [directEx] [queriedEx]).2.1
    queriedEx (by decide) (by decide)

/-!
## C8: the multi-method lookup (`findTaskByMultipleIdentifiers`)

The lookup normalizes block ids by stripping a leading caret and trimming, and
normalizes descriptions by removing the session sentinel, the four
emoji-dated fields, block ids and tags (all with the source's corrupted emoji
literals), collapsing whitespace and trimming. -/

/-- Model of `normalizeBlockId`: remove the caret prefix if present, then trim. -/
def normalizeBlockId (b : List Char) : List Char := trimL (stripLeadCaret b)

/-- Match the session-sentinel removal pattern (corrupted tomato, double-colon
bracket form with optional expected suffix) at the head; returns the rest. -/
def matchNorm1 (l : List Char) : Option (List Char) :=
  match litP ('[' :: mojiTomato ++ [':', ':']) l with
  | none => none
  | some l1 =>
    let l2 := l1.dropWhile isJsWs
    let ds := l2.takeWhile isDigitC
    if ds = [] then none
    else
      match l2.dropWhile isDigitC with
      | '/' :: l3 =>
        let es := l3.takeWhile isDigitC
        if es = [] then none
        else
          match litP [']'] (l3.dropWhile isDigitC) with
          | none => none
          | some rest => some rest
      | l3 =>
        match litP [']'] l3 with
        | none => none
        | some rest => some rest

/-- Match an emoji-dated field (emoji, whitespace, ISO date) at the head. -/
def matchNormDate (emo : List Char) (l : List Char) : Option (List Char) :=
  match litP emo l with
  | none => none
  | some l1 =>
    match wsPlus l1 with
    | none => none
    | some l2 => matchIsoDate l2

/-- Match a block id (`\s\^` then anchor characters) at the head. -/
def matchNormAnchor (l : List Char) : Option (List Char) :=
  match l with
  | c :: '^' :: rest =>
    if isJsWs c then
      if (rest.takeWhile isAnchorC) = [] then none
      else some (rest.dropWhile isAnchorC)
    else none
  | _ => none

/-- Match a tag (`\s+#` then tag characters) at the head. -/
def matchNormTag (l : List Char) : Option (List Char) :=
  match wsPlus l with
  | none => none
  | some l1 =>
    match litP ['#'] l1 with
    | none => none
    | some l2 =>
      if (l2.takeWhile isTagC) = [] then none
      else some (l2.dropWhile isTagC)

/-- Model of `str.replace(pat, '')` with a global pattern: delete every non-overlapping
leftmost match, resuming the scan after each deletion.  The fuel argument is
the remaining input length; every step consumes at least one character. -/
def removeAllAux (m : List Char → Option (List Char)) : Nat → List Char → List Char
  | 0, l => l
  | _ + 1, [] => []
  | fuel + 1, c :: cs =>
    match m (c :: cs) with
    | some rest => removeAllAux m fuel rest
    | none => c :: removeAllAux m fuel cs

def removeAll (m : List Char → Option (List Char)) (l : List Char) : List Char :=
  removeAllAux m l.length l

/-- Model of the global replacement of whitespace runs by single spaces. -/
def collapseWsAux : Nat → List Char → List Char
  | 0, l => l
  | _ + 1, [] => []
  | fuel + 1, c :: cs =>
    if isJsWs c then ' ' :: collapseWsAux fuel (cs.dropWhile isJsWs)
    else c :: collapseWsAux fuel cs

def collapseWs (l : List Char) : List Char := collapseWsAux l.length l

/-- Model of `normalizeTaskText`: strip session counts, the four dated fields, block
ids and tags (in the source's order), collapse whitespace, trim. -/
def normalizeTaskText (text : List Char) : List Char :=
  trimL (collapseWs (removeAll matchNormTag (removeAll matchNormAnchor
    (removeAll (matchNormDate mojiCheck) (removeAll (matchNormDate mojiHour)
      (removeAll (matchNormDate mojiCal) (removeAll (matchNormDate mojiPlus)
        (removeAll matchNorm1 text))))))))

/-- Stage 1 of the lookup: first record with a truthy block link whose
normalized block id equals the tracker task's normalized block id. -/
def anchorHit (trackerTask : TaskItem) (tasks : List TaskItem) : Option TaskItem :=
  tasks.find? fun it =>
    !it.blockLink.isEmpty
      && normalizeBlockId it.blockLink == normalizeBlockId trackerTask.blockLink

/-- Stage 2: first record whose normalized description equals the tracker
task's normalized description. -/
def descHit (trackerTask : TaskItem) (tasks : List TaskItem) : Option TaskItem :=
  tasks.find? fun it =>
    normalizeTaskText it.description == normalizeTaskText trackerTask.description

/-- Stage 3: first record with the tracker task's line number. -/
def lineHit (trackerTask : TaskItem) (tasks : List TaskItem) : Option TaskItem :=
  tasks.find? fun it => it.line == trackerTask.line

/-- Model of `findTaskByMultipleIdentifiers`: block-link match first (guarded by the
tracker task having a truthy block link), then normalized-description match
(guarded by a truthy description), then line-number match. -/
def findTaskByMultipleIdentifiers (trackerTask : TaskItem) (tasks : List TaskItem) :
    Option TaskItem :=
  match (if trackerTask.blockLink.isEmpty then none else anchorHit trackerTask tasks) with
  | some t => some t
  | none =>
    match (if trackerTask.description.isEmpty then none else descHit trackerTask tasks) with
    | some t => some t
    | none => lineHit trackerTask tasks

/-- C8.  The lookup tries the block-anchor comparison first (both sides
normalized by stripping a leading caret and trimming), then the
normalized-description comparison, then the line-number comparison, in that
order, and returns the first record that matches: a stage-1 hit is returned
outright; stage 2 is consulted only when stage 1 is skipped (no anchor on the
tracker task) or missed; stage 3 only when the first two are skipped or
missed. -/
theorem c8_lookup_precedence (trackerTask : TaskItem) (tasks : List TaskItem) :
    (trackerTask.blockLink.isEmpty = false →
      ∀ t, anchorHit trackerTask tasks = some t →
        findTaskByMultipleIdentifiers trackerTask tasks = some t)
    ∧ ((trackerTask.blockLink.isEmpty = true ∨ anchorHit trackerTask tasks = none) →
        trackerTask.description.isEmpty = false →
        ∀ t, descHit trackerTask tasks = some t →
          findTaskByMultipleIdentifiers trackerTask tasks = some t)
    ∧ ((trackerTask.blockLink.isEmpty = true ∨ anchorHit trackerTask tasks = none) →
        (trackerTask.description.isEmpty = true ∨ descHit trackerTask tasks = none) →
        findTaskByMultipleIdentifiers trackerTask tasks = lineHit trackerTask tasks) := by
  refine ⟨?_, ?_, ?_⟩
  · intro hbl t ha
    unfold findTaskByMultipleIdentifiers
    rw [if_neg (by rw [hbl]; exact Bool.false_ne_true), ha]
  · intro h1 hdesc t hd
    unfold findTaskByMultipleIdentifiers
    rcases h1 with h1 | h1
    · rw [if_pos h1]
      rw [if_neg (by rw [hdesc]; exact Bool.false_ne_true), hd]
    · by_cases hbl : trackerTask.blockLink.isEmpty = true
      · rw [if_pos hbl, if_neg (by rw [hdesc]; exact Bool.false_ne_true), hd]
      · rw [if_neg hbl, h1, if_neg (by rw [hdesc]; exact Bool.false_ne_true), hd]
  · intro h1 h2
    unfold findTaskByMultipleIdentifiers
    have e1 : (if trackerTask.blockLink.isEmpty then none
        else anchorHit trackerTask tasks) = none := by
      rcases h1 with h1 | h1
      · rw [if_pos h1]
      · by_cases hbl : trackerTask.blockLink.isEmpty = true
        · rw [if_pos hbl]
        · rw [if_neg hbl, h1]
    have e2 : (if trackerTask.description.isEmpty then none
        else descHit trackerTask tasks) = none := by
      rcases h2 with h2 | h2
      · rw [if_pos h2]
      · by_cases hde : trackerTask.description.isEmpty = true
        · rw [if_pos hde]
        · rw [if_neg hde, h2]
    rw [e1, e2]

/-- Concrete records for the C8 witness: the anchor match sits in the second
position while the first record matches by description only; the lookup still
returns the anchor hit. -/
def trackerEx : TaskItem :=
  { blankTask with
    blockLink := sl "^ab12", description := sl "Write code", line := 7 }

def descOnlyEx : TaskItem :=
  { blankTask with
    blockLink := sl "^zz99", description := sl "Write code", line := 7 }

def anchorMatchEx : TaskItem :=
  { blankTask with
    blockLink := sl "^ab12", description := sl "Something else", line := 9 }

/-- Closed witness for C8: the anchor stage wins over an earlier
description/line match. -/
theorem c8_lookup_precedence_witness :
    findTaskByMultipleIdentifiers trackerEx [descOnlyEx, anchorMatchEx]
      = some anchorMatchEx :=
  (c8_lookup_precedence trackerEx [descOnlyEx, anchorMatchEx]).1
    (by decide) anchorMatchEx (by decide)

/-!
## C7 and C9: the direct-scan resolver (`resolveTasks`)

The resolver needs the dialect deserializer, which lives in `serializer.ts`
(not under `src/`) and is therefore modelled from the spec below. -/

/-- The real calendar emoji of the due-date marker. -/
def realCal : Char := '📅'

/-- Rest after a match of the real-emoji session sentinel. -/
def matchRealPomRest (l : List Char) : Option (List Char) :=
  (matchRealPom l).map fun x => x.2.2

/-- Rest after a real due-date marker (calendar emoji, whitespace, ISO date). -/
def matchRealDateRest (l : List Char) : Option (List Char) :=
  match litP [realCal] l with
  | none => none
  | some l1 =>
    match wsPlus l1 with
    | none => none
    | some l2 => matchIsoDate l2

/-- Leftmost due-date marker; returns the ten date characters. -/
def findRealDue : List Char → Option (List Char)
  | [] => none
  | c :: cs =>
    match litP [realCal] (c :: cs) with
    | some l1 =>
      (match wsPlus l1 with
       | some l2 =>
         match matchIsoDate l2 with
         | some rest => some (l2.take (l2.length - rest.length))
         | none => findRealDue cs
       | none => findRealDue cs)
    | none => findRealDue cs

/-- Collect the whitespace-preceded `#`-tags of a body. -/
def collectTagsAux : Nat → List Char → List (List Char)
  | 0, _ => []
  | _ + 1, [] => []
  | fuel + 1, c :: cs =>
    match wsPlus (c :: cs) with
    | some l1 =>
      (match l1 with
       | '#' :: l2 =>
         if (l2.takeWhile isTagC) = [] then collectTagsAux fuel cs
         else ('#' :: l2.takeWhile isTagC) :: collectTagsAux fuel (l2.dropWhile isTagC)
       | _ => collectTagsAux fuel cs)
    | none => collectTagsAux fuel cs

def collectTags (l : List Char) : List (List Char) := collectTagsAux l.length l

/-- The structured result of deserializing a task body. -/
structure TaskDetail where
  description : List Char
  pomodoros : List Char
  due : Option (List Char)
  created : Option (List Char)
  cancelled : Option (List Char)
  scheduled : Option (List Char)
  start : Option (List Char)
  done : Option (List Char)
  priority : List Char
  recurrenceRule : List Char
  tags : List (List Char)
deriving DecidableEq

/-- The configured task dialect (`Settings.ts`). -/
inductive TaskFormat
  | TASKS
  | DATAVIEW
deriving DecidableEq

/-- The raw `actual/expected` text of the session sentinel, empty when the
sentinel is absent. -/
def pomodorosOf (body : List Char) : List Char :=
  match findRealPom body with
  | some (ds, some es) => ds ++ '/' :: es
  | some (ds, none) => ds
  | none => []

/-- Modelled from the spec: the dialect deserializers (`serializer.ts`,
`DESERIALIZERS[format].deserialize`) are not under `src/`.  Per §4.2 the
session counter is `actual/expected` inside the tomato-emoji bracket sentinel
(defaulting to 0 when absent), dates are emoji-marked ISO dates that are unset
when missing or malformed, tags are the `#`-tokens, and the description is the
remaining text after the recognized markers are removed.  The date fields
other than `due`, the priority and the recurrence rule are reported unset —
no claim settled in this file depends on them.  Deserialization is total. -/
def deserialize (_format : TaskFormat) (body : List Char) : TaskDetail :=
  { description := trimL (collapseWs (removeAll matchNormTag
      (removeAll matchRealDateRest (removeAll matchRealPomRest body))))
    pomodoros := pomodorosOf body
    due := findRealDue body
    created := none
    cancelled := none
    scheduled := none
    start := none
    done := none
    priority := []
    recurrenceRule := []
    tags := collectTags body }

/-- First component of `pomodoros.split('/')`. -/
def firstField : List Char → List Char
  | [] => []
  | '/' :: _ => []
  | c :: cs => c :: firstField cs

/-- Second component of `pomodoros.split('/')` (`undefined` when there is no
slash). -/
def afterSlash : List Char → Option (List Char)
  | [] => none
  | '/' :: rest => some (firstField rest)
  | _ :: cs => afterSlash cs

/-- A `TFile`: path and display name. -/
structure FileRef where
  path : List Char
  name : List Char
deriving DecidableEq

/-- The `TaskItem` built from one structurally-indexed task line
(`resolveTasks` loop body). -/
def mkTaskItem (file : FileRef) (line : List Char) (lineNr : Nat) (taskChar : Char)
    (comps : TaskComponents) (detail : TaskDetail) : TaskItem :=
  { text := line
    path := file.path
    fileName := file.name
    name := detail.description
    status := [comps.status]
    blockLink := comps.blockLink
    checked := taskChar != ' '
    description := detail.description
    done := (detail.done).getD []
    due := (detail.due).getD []
    created := (detail.created).getD []
    cancelled := (detail.cancelled).getD []
    scheduled := (detail.scheduled).getD []
    start := (detail.start).getD []
    priority := detail.priority
    recurrence := detail.recurrenceRule
    expected :=
      match afterSlash detail.pomodoros with
      | some e => if e = [] then 0 else (digitsVal e : Int)
      | none => 0
    actual :=
      if firstField detail.pomodoros = [] then 0
      else (digitsVal (firstField detail.pomodoros) : Int)
    tags := detail.tags
    line := lineNr
    source := TaskSource.direct }

/-- Assignment to a JS object under an integer key: replace the value
when the key is present, otherwise add the binding. -/
def upsert (k : Nat) (v : TaskItem) : List (Nat × TaskItem) → List (Nat × TaskItem)
  | [] => [(k, v)]
  | (k', v') :: rest => if k' = k then (k, v) :: rest else (k', v') :: upsert k v rest

/-- The resolver loop: walk the structural index in order, skip non-task items
and lines without extractable components, store each built record in the
line-keyed cache. -/
def buildCacheAux (format : TaskFormat) (file : FileRef) (lines : List (List Char)) :
    List MListItem → List (Nat × TaskItem) → List (Nat × TaskItem)
  | [], cache => cache
  | it :: rest, cache =>
    match it.task with
    | none => buildCacheAux format file lines rest cache
    | some tc =>
      match extractTaskComponents (lines.getD it.line []) with
      | none => buildCacheAux format file lines rest cache
      | some comps =>
        buildCacheAux format file lines rest
          (upsert it.line (mkTaskItem file (lines.getD it.line []) it.line tc comps
            (deserialize format comps.body)) cache)

def buildCache (format : TaskFormat) (file : FileRef) (lines : List (List Char))
    (items : List MListItem) : List (Nat × TaskItem) :=
  buildCacheAux format file lines items []

/-- The keys of the cache in the order `Object.values` iterates them:
integer-like keys ascending. -/
def sortedKeys (cache : List (Nat × TaskItem)) : List Nat :=
  (cache.map Prod.fst).insertionSort (· ≤ ·)

/-- Model of `Object.values(cache)`. -/
def jsObjValues (cache : List (Nat × TaskItem)) : List TaskItem :=
  (sortedKeys cache).filterMap fun k => cache.lookup k

/-- Model of `resolveTasks`: empty content or absent metadata yield the empty list;
otherwise the structural index is resolved through the line-keyed cache. -/
def resolveTasks (format : TaskFormat) (file : FileRef) (content : List Char)
    (metadata : Option (List MListItem)) : List TaskItem :=
  match metadata with
  | none => []
  | some md =>
    if content = [] then []
    else jsObjValues (buildCache format file (splitLines content) md)

/-- C7.  A document with empty content, or one whose structural index is
absent, resolves to the empty task collection — no error, for every format,
file and other input. -/
theorem c7_degenerate_inputs_yield_empty (format : TaskFormat) (file : FileRef)
    (content : List Char) (metadata : Option (List MListItem)) :
    resolveTasks format file [] metadata = []
    ∧ resolveTasks format file content none = [] := by
  constructor
  · cases metadata with
    | none => rfl
    | some md => simp [resolveTasks]
  · rfl

/-!
## C9 support: cache invariants and `Object.values` ordering -/

theorem lookup_upsert_self (k : Nat) (v : TaskItem) (cache : List (Nat × TaskItem)) :
    (upsert k v cache).lookup k = some v := by
  induction cache with
  | nil => simp [upsert, List.lookup]
  | cons kv rest ih =>
    obtain ⟨k', v'⟩ := kv
    by_cases hk : k' = k
    · simp [upsert, hk, List.lookup]
    · simp only [upsert, if_neg hk]
      rw [List.lookup]
      have : (k == k') = false := by
        simp only [beq_eq_false_iff_ne, ne_eq]
        exact fun hc => hk hc.symm
      rw [this]
      exact ih

theorem mem_upsert {cache : List (Nat × TaskItem)} {k : Nat} {v : TaskItem} :
    ∀ kv ∈ upsert k v cache, kv = (k, v) ∨ kv ∈ cache := by
  induction cache with
  | nil => intro kv h; simp [upsert] at h; exact Or.inl h
  | cons kv' rest ih =>
    obtain ⟨k', v'⟩ := kv'
    intro kv h
    by_cases hk : k' = k
    · simp only [upsert, if_pos hk] at h
      rcases List.mem_cons.mp h with h | h
      · exact Or.inl h
      · exact Or.inr (List.mem_cons_of_mem _ h)
    · simp only [upsert, if_neg hk] at h
      rcases List.mem_cons.mp h with h | h
      · exact Or.inr (h ▸ List.mem_cons_self _ _)
      · rcases ih kv h with h | h
        · exact Or.inl h
        · exact Or.inr (List.mem_cons_of_mem _ h)

theorem keys_upsert {cache : List (Nat × TaskItem)} {k : Nat} {v : TaskItem} :
    ∀ x ∈ (upsert k v cache).map Prod.fst, x = k ∨ x ∈ cache.map Prod.fst := by
  intro x hx
  obtain ⟨kv, hkm, hkx⟩ := List.mem_map.mp hx
  rcases mem_upsert kv hkm with h | h
  · exact Or.inl (by rw [← hkx, h])
  · exact Or.inr (hkx ▸ List.mem_map_of_mem Prod.fst h)

theorem keys_upsert_nodup {cache : List (Nat × TaskItem)} {k : Nat} {v : TaskItem}
    (h : (cache.map Prod.fst).Nodup) : ((upsert k v cache).map Prod.fst).Nodup := by
  induction cache with
  | nil => simp [upsert]
  | cons kv rest ih =>
    obtain ⟨k', v'⟩ := kv
    simp only [List.map_cons, List.nodup_cons] at h
    by_cases hk : k' = k
    · simp only [upsert, if_pos hk, List.map_cons, List.nodup_cons]
      exact ⟨fun hc => h.1 (hk ▸ hc), h.2⟩
    · simp only [upsert, if_neg hk, List.map_cons, List.nodup_cons]
      refine ⟨fun hc => ?_, ih h.2⟩
      rcases keys_upsert k' hc with hc | hc
      · exact hk hc
      · exact h.1 hc

theorem buildCacheAux_line_inv (format : TaskFormat) (file : FileRef)
    (lines : List (List Char)) :
    ∀ (items : List MListItem) (cache : List (Nat × TaskItem)),
      (∀ kv ∈ cache, (kv.2).line = kv.1) →
      ∀ kv ∈ buildCacheAux format file lines items cache, (kv.2).line = kv.1 := by
  intro items
  induction items with
  | nil => intro cache hc; exact hc
  | cons it rest ih =>
    intro cache hc
    unfold buildCacheAux
    cases it.task with
    | none => exact ih cache hc
    | some tc =>
      cases extractTaskComponents (lines.getD it.line []) with
      | none => exact ih cache hc
      | some comps =>
        refine ih _ ?_
        intro kv hkv
        rcases mem_upsert kv hkv with h | h
        · rw [h]; rfl
        · exact hc kv h

theorem buildCacheAux_keys_nodup (format : TaskFormat) (file : FileRef)
    (lines : List (List Char)) :
    ∀ (items : List MListItem) (cache : List (Nat × TaskItem)),
      (cache.map Prod.fst).Nodup →
      ((buildCacheAux format file lines items cache).map Prod.fst).Nodup := by
  intro items
  induction items with
  | nil => intro cache hc; exact hc
  | cons it rest ih =>
    intro cache hc
    unfold buildCacheAux
    cases it.task with
    | none => exact ih cache hc
    | some tc =>
      cases extractTaskComponents (lines.getD it.line []) with
      | none => exact ih cache hc
      | some comps => exact ih _ (keys_upsert_nodup hc)

theorem lookup_line {cache : List (Nat × TaskItem)}
    (hinv : ∀ kv ∈ cache, (kv.2).line = kv.1) :
    ∀ k v, cache.lookup k = some v → v.line = k := by
  induction cache with
  | nil => intro k v h; simp [List.lookup] at h
  | cons kv rest ih =>
    obtain ⟨k', v'⟩ := kv
    intro k v h
    rw [List.lookup] at h
    by_cases hk : (k == k') = true
    · rw [hk] at h
      simp only [Option.some.injEq] at h
      have hk' : k = k' := by simpa using hk
      have := hinv (k', v') (List.mem_cons_self _ _)
      simp only at this
      rw [← h, this, hk']
    · rw [Bool.not_eq_true] at hk
      rw [hk] at h
      exact ih (fun x hx => hinv x (List.mem_cons_of_mem _ hx)) k v h

theorem sortedKeys_pairwise_lt {cache : List (Nat × TaskItem)}
    (h : (cache.map Prod.fst).Nodup) : (sortedKeys cache).Pairwise (· < ·) := by
  have hs : (sortedKeys cache).Pairwise (· ≤ ·) :=
    List.sorted_insertionSort (· ≤ ·) (cache.map Prod.fst)
  have hperm : (sortedKeys cache).Perm (cache.map Prod.fst) :=
    List.perm_insertionSort (· ≤ ·) (cache.map Prod.fst)
  have hnd : (sortedKeys cache).Nodup := hperm.nodup_iff.mpr h
  exact (hs.and hnd).imp fun hab => lt_of_le_of_ne hab.1 hab.2

theorem pairwise_filterMap_lookup {cache : List (Nat × TaskItem)}
    (hline : ∀ k v, cache.lookup k = some v → v.line = k) :
    ∀ {keys : List Nat}, keys.Pairwise (· < ·) →
      (keys.filterMap fun k => cache.lookup k).Pairwise
        (fun a b => a.line < b.line) := by
  intro keys h
  induction h with
  | nil => simp
  | @cons a l hrel hpair ih =>
    rw [List.filterMap_cons]
    cases hl : cache.lookup a with
    | none => exact ih
    | some v =>
      refine List.Pairwise.cons ?_ ih
      intro y hy
      obtain ⟨k, hk_mem, hk_look⟩ := List.mem_filterMap.mp hy
      rw [hline a v hl, hline k y hk_look]
      exact hrel k hk_mem

theorem buildCacheAux_append (format : TaskFormat) (file : FileRef)
    (lines : List (List Char)) :
    ∀ (xs ys : List MListItem) (cache : List (Nat × TaskItem)),
      buildCacheAux format file lines (xs ++ ys) cache
        = buildCacheAux format file lines ys (buildCacheAux format file lines xs cache) := by
  intro xs
  induction xs with
  | nil => intro ys cache; rfl
  | cons it rest ih =>
    intro ys cache
    cases ht : it.task with
    | none =>
      simp only [List.cons_append, buildCacheAux, ht]
      exact ih ys cache
    | some tc =>
      cases hx : extractTaskComponents (lines.getD it.line []) with
      | none =>
        simp only [List.cons_append, buildCacheAux, ht, hx]
        exact ih ys cache
      | some comps =>
        simp only [List.cons_append, buildCacheAux, ht, hx]
        exact ih ys _

/-- C9.  The direct-scan resolver produces at most one record per source
line and returns them sorted by strictly ascending line number, whatever the
order (and multiplicity) of the structural-index entries; and a later index
entry for a line overwrites the earlier one in the line-keyed cache: after
processing `pre ++ [it]`, the cache maps `it.line` to exactly the record built
from `it`'s line. -/
theorem c9_resolver_per_line_unique_sorted (format : TaskFormat) (file : FileRef)
    (content : List Char) (metadata : Option (List MListItem)) :
    (resolveTasks format file content metadata).Pairwise (fun a b => a.line < b.line)
    ∧ (∀ (pre : List MListItem) (it : MListItem) (tc : Char) (comps : TaskComponents),
        it.task = some tc →
        extractTaskComponents ((splitLines content).getD it.line []) = some comps →
        (buildCache format file (splitLines content) (pre ++ [it])).lookup it.line
          = some (mkTaskItem file ((splitLines content).getD it.line []) it.line tc comps
              (deserialize format comps.body))) := by
  constructor
  · cases metadata with
    | none => simp [resolveTasks]
    | some md =>
      have hres : resolveTasks format file content (some md)
          = if content = [] then []
            else jsObjValues (buildCache format file (splitLines content) md) := rfl
      rw [hres]
      by_cases hc : content = []
      · simp [hc]
      · rw [if_neg hc]
        unfold jsObjValues
        have hinv := buildCacheAux_line_inv format file (splitLines content) md []
          (by intro kv h; simp at h)
        have hnd := buildCacheAux_keys_nodup format file (splitLines content) md []
          (by simp)
        exact pairwise_filterMap_lookup (lookup_line hinv) (sortedKeys_pairwise_lt hnd)
  · intro pre it tc comps htask hcomps
    unfold buildCache
    rw [buildCacheAux_append]
    have hstep : buildCacheAux format file (splitLines content) [it]
        (buildCacheAux format file (splitLines content) pre [])
        = upsert it.line (mkTaskItem file ((splitLines content).getD it.line []) it.line
            tc comps (deserialize format comps.body))
          (buildCacheAux format file (splitLines content) pre []) := by
      simp only [buildCacheAux, htask, hcomps]
    rw [hstep]
    exact lookup_upsert_self _ _ _

/-- Closed witness for C9: a structural index listing line 0 twice; the cache
holds the record built from the later entry (and exactly one record for the
line). -/
theorem c9_resolver_witness :
    (buildCache TaskFormat.TASKS ⟨sl "f.md", sl "f.md"⟩
        (splitLines (sl "- [ ] A ^a1")) ([⟨0, some ' '⟩] ++ [⟨0, some ' '⟩])).lookup 0
      = some (mkTaskItem ⟨sl "f.md", sl "f.md"⟩
          ((splitLines (sl "- [ ] A ^a1")).getD 0 []) 0 ' '
          ⟨' ', sl "A", sl " ^a1"⟩
          (deserialize TaskFormat.TASKS (sl "A"))) :=
  (c9_resolver_per_line_unique_sorted TaskFormat.TASKS ⟨sl "f.md", sl "f.md"⟩
      (sl "- [ ] A ^a1") (some ([⟨0, some ' '⟩] ++ [⟨0, some ' '⟩]))).2
    [⟨0, some ' '⟩] ⟨0, some ' '⟩ ' ' ⟨' ', sl "A", sl " ^a1"⟩ rfl (by decide)

/-!
## C10: the session-completion update of the tracker (`updateActual`) -/

/-- The tracker's state: the active task, the tracked file, the pin flag. -/
structure TrackerState where
  task : Option TaskItem
  file : Option FileRef
  pinned : Bool
deriving DecidableEq

/-- The in-memory bump of the active task's count: `actual += 1` when the
count is non-negative, otherwise `actual = 1` (the guard for a non-numeric
count). -/
def bumpActual (t : TaskItem) : TaskItem :=
  if t.actual ≥ 0 then { t with actual := t.actual + 1 } else { t with actual := 1 }

/-- Model of `updateActual`: when task tracking is enabled, a task is active, it
carries a truthy block link, and its path resolves to an existing file, bump
the in-memory count and then attempt the file rewrite (modelled as the
argument pair handed to `incrTaskActual`); in every other case do nothing.
`resolveFile` models `vault.getAbstractFileByPath` restricted to `TFile`
results. -/
def updateActual (enableTaskTracking : Bool)
    (resolveFile : List Char → Option FileRef) (st : TrackerState) :
    TrackerState × Option (List Char × FileRef) :=
  match st.task with
  | none => (st, none)
  | some t =>
    if enableTaskTracking && !t.blockLink.isEmpty then
      match resolveFile t.path with
      | some f => ({ st with task := some (bumpActual t) }, some (t.blockLink, f))
      | none => (st, none)
    else (st, none)

/-- C10.  The update operation is a complete no-op — the tracker state is
unchanged and no rewrite is attempted — unless task tracking is enabled, a
task is active, the task's block anchor is non-empty, and its source path
resolves to an existing file; when all four conditions hold (and the count is
the non-negative integer every record the program builds carries), the
in-memory count is incremented by exactly 1 and the rewrite is attempted with
the task's anchor and the resolved file, the state already holding the bumped
count. -/
theorem c10_update_actual_gating (enable : Bool)
    (resolveFile : List Char → Option FileRef) (st : TrackerState) :
    ((enable = false ∨ st.task = none
        ∨ (∃ t, st.task = some t
            ∧ (t.blockLink.isEmpty = true ∨ resolveFile t.path = none))) →
      updateActual enable resolveFile st = (st, none))
    ∧ (∀ t f, st.task = some t → enable = true → t.blockLink.isEmpty = false →
        resolveFile t.path = some f → 0 ≤ t.actual →
        updateActual enable resolveFile st
          = ({ st with task := some { t with actual := t.actual + 1 } },
              some (t.blockLink, f))) := by
  constructor
  · intro h
    unfold updateActual
    cases hst : st.task with
    | none => rfl
    | some t =>
      dsimp only
      rcases h with h | h | ⟨t', ht', h⟩
      · rw [h]
        simp
      · rw [hst] at h
        exact absurd h (by simp)
      · rw [hst] at ht'
        have ht'' : t = t' := by injection ht'
        subst ht''
        rcases h with h | h
        · rw [h]
          simp
        · by_cases he : (enable && !t.blockLink.isEmpty) = true
          · rw [if_pos he, h]
          · rw [if_neg he]
  · intro t f hst hen hbl hres hact
    unfold updateActual
    rw [hst]
    dsimp only
    have hcond : (enable && !t.blockLink.isEmpty) = true := by
      rw [hen, hbl]
      rfl
    rw [if_pos hcond, hres]
    unfold bumpActual
    rw [if_pos hact]

/-- Closed witness for C10: with tracking enabled, an active anchored task
whose path resolves, the count goes from 2 to 3 and the rewrite is attempted
with the task's anchor. -/
theorem c10_update_actual_witness :
    updateActual true
      (fun p => if p = sl "today.md" then some ⟨sl "today.md", sl "today.md"⟩ else none)
      ⟨some { directEx with actual := 2 }, none, false⟩
      = (⟨some { directEx with actual := 3 }, none, false⟩,
          some (sl "^xyz9", ⟨sl "today.md", sl "today.md"⟩)) := by
  have h := (c10_update_actual_gating true
      (fun p => if p = sl "today.md" then some ⟨sl "today.md", sl "today.md"⟩ else none)
      ⟨some { directEx with actual := 2 }, none, false⟩).2
    { directEx with actual := 2 } ⟨sl "today.md", sl "today.md"⟩
    rfl rfl (by decide) (by decide) (by decide)
  exact h

end Pomodoro
